import Mathlib

/-!
Shallow embedding of `self_driving/ml_training/Trainer.py`.

The `Trainer` class wires a computation graph to a session: `fit` runs the
epoch/step training loop with validation-gated checkpointing,
`get_accuracy` / `get_valid_accuracy` evaluate an accuracy tensor, and
`predict_prob` / `predict` run the inference path.

The embedding makes the session's observable actions explicit as an event
trace, threads the checkpoint-directory listing (a `List String`) through
every method, and parametrises the values produced by tensor executions
(validation losses, accuracy values, network outputs) as oracles, since
those values come from the opaque numerical framework.  Losses and
probabilities are modelled as rationals; the `float("inf")` initial value of
the best-validation-loss tracker is `⊤ : WithTop ℚ`.
-/

namespace Trainer

/-- NumPy element types relevant to the dtype precondition in `predict_prob`. -/
inductive Dtype where
  | float32
  | float64
  | int32
  | uint8
  deriving DecidableEq, Repr

/-- A NumPy array: an element dtype together with its 2-D data. -/
structure NpArray where
  dtype : Dtype
  data : List (List ℚ)
  deriving DecidableEq, Repr

/-- Python exceptions that code in `Trainer.py` can raise. -/
inductive PyErr where
  | zeroDivisionError
  | assertionError
  deriving DecidableEq, Repr

/-- Observable session / filesystem operations performed by `Trainer` methods. -/
inductive Ev where
  | openSession
  | initTrainIter
  | initValidIter
  | initIterator
  | initVars
  | restore (path : String)
  | save (path : String)
  | runTrainLoss
  | runUpdate
  | runValidLoss
  | runAcc
  | runPred
  deriving DecidableEq, Repr

/-- The fixed checkpoint path prefix `os.path.join(self.save_dir, 'best_validation')`
(relative to the checkpoint directory). -/
def save_path : String := "best_validation"

/-- Model of `self.saver.save(...)`: writes checkpoint files derived from the `save_path`
prefix into the checkpoint directory, overwriting any previous snapshot. -/
def saveCkpt (store : List String) : List String :=
  if save_path ++ ".index" ∈ store then store else (save_path ++ ".index") :: store

/-- The `Config` hyperparameters that drive the `fit` loop:
`config.epochs`, `config.num_steps` (steps per epoch) and `config.save_step`
(the report interval `self.show_step`). -/
structure Config where
  epochs : ℕ
  num_steps : ℕ
  save_step : ℕ
  deriving DecidableEq, Repr

/-- One report-checkpoint event inside `fit`: the validation loss just
computed, the best-so-far tracker value right before the comparison, and
whether a snapshot was saved. -/
structure CkptEvent where
  validLoss : ℚ
  bestBefore : WithTop ℚ
  saved : Bool
  deriving DecidableEq

/-- The best-validation-loss tracker value right after a checkpoint event. -/
def bestAfter (e : CkptEvent) : WithTop ℚ :=
  if e.saved then (e.validLoss : WithTop ℚ) else e.bestBefore

/-- State threaded through a single call of `Trainer.fit`:
the `best_valid_loss` tracker, the checkpoint-directory listing, the event
trace, the trace of report-checkpoint events, the number of executions of
`self.tf_valid_loss` so far, the number of training batches consumed so far,
and, for each optimizer update performed, the 0-based index of the training
batch it operated on. -/
structure FitState where
  best : WithTop ℚ
  store : List String
  events : List Ev
  ckptTrace : List CkptEvent
  validRuns : ℕ
  trainBatches : ℕ
  updateBatches : List ℕ

/-- Lines 170-175 of `fit`: set `best_valid_loss = float("inf")`, open a
session, run both iterator initializer ops and the global variables
initializer op, then evaluate `self.tf_train_loss` once — consuming one
training batch — before the epoch loop begins. -/
def fitInit (store0 : List String) : FitState :=
  { best := ⊤
    store := store0
    events := [Ev.openSession, Ev.initTrainIter, Ev.initValidIter, Ev.initVars,
               Ev.runTrainLoss]
    ckptTrace := []
    validRuns := 0
    trainBatches := 1
    updateBatches := [] }

/-- Model of `sess.run([self.update_weights, self.tf_train_loss])`: one optimizer
update plus loss fetch, consuming the next training batch (one `get_next`
per session run). -/
def trainUpdate (st : FitState) : FitState :=
  { st with
      events := st.events ++ [Ev.runUpdate, Ev.runTrainLoss]
      updateBatches := st.updateBatches ++ [st.trainBatches]
      trainBatches := st.trainBatches + 1 }

/-- The body guarded by `step % self.show_step == 0` (lines 188-192 of
`fit`): run `self.tf_valid_loss` once and, exactly when the result is
strictly below `best_valid_loss`, save a snapshot under `save_path` and
update `best_valid_loss` — both in the same branch. -/
def report (vl : ℕ → ℚ) (st : FitState) : FitState :=
  if (vl st.validRuns : WithTop ℚ) < st.best then
    { st with
        events := st.events ++ [Ev.runValidLoss, Ev.save save_path]
        validRuns := st.validRuns + 1
        best := (vl st.validRuns : WithTop ℚ)
        store := saveCkpt st.store
        ckptTrace := st.ckptTrace ++ [⟨vl st.validRuns, st.best, true⟩] }
  else
    { st with
        events := st.events ++ [Ev.runValidLoss]
        validRuns := st.validRuns + 1
        ckptTrace := st.ckptTrace ++ [⟨vl st.validRuns, st.best, false⟩] }

/-- One iteration of the inner `for step in range(self.iterations)` loop. -/
def runStep (cfg : Config) (vl : ℕ → ℚ) (st : FitState) (step : ℕ) : FitState :=
  if step % cfg.save_step = 0 then report vl (trainUpdate st) else trainUpdate st

/-- One iteration of the outer `for epoch in range(self.epochs)` loop
(the epoch index only affects the progress printout). -/
def runEpoch (cfg : Config) (vl : ℕ → ℚ) (st : FitState) (_epoch : ℕ) : FitState :=
  (List.range cfg.num_steps).foldl (runStep cfg vl) st

/-- Model of `Trainer.fit`, parametrised by the sequence `vl` of validation-loss
values the session produces (the k-th execution of `self.tf_valid_loss`
returns `vl k`) and by the initial checkpoint-directory listing `store0`. -/
def fit (cfg : Config) (vl : ℕ → ℚ) (store0 : List String) : FitState :=
  (List.range cfg.epochs).foldl (runEpoch cfg vl) (fitInit store0)

/-- Result of one `get_accuracy` call: the returned value (or the exception
raised), the event trace, and the checkpoint-directory listing afterwards. -/
structure AccResult where
  value : Except PyErr ℚ
  events : List Ev
  store : List String

/-- Model of `Trainer.get_accuracy`, parametrised by the checkpoint-directory listing
and by the sequence of values the accuracy tensor evaluates to (the i-th
execution of `sess.run(accuracy_tensor)` returns `accVals i`).  The session
is opened, the target iterator reset, and parameters restored from
`save_path` when the directory listing is non-empty (freshly initialized
when it is empty); then the accuracy tensor is run `iterations` times and
the running total — which starts as the integer 0 — is divided by
`iterations`, raising `ZeroDivisionError` when `iterations` is 0. -/
def get_accuracy (store : List String) (accVals : ℕ → ℚ) (iterations : ℕ) :
    AccResult :=
  { value :=
      if iterations = 0 then Except.error PyErr.zeroDivisionError
      else Except.ok (((List.range iterations).map accVals).sum / (iterations : ℚ))
    events :=
      [Ev.openSession, Ev.initIterator] ++
        (if store = [] then [Ev.initVars] else [Ev.restore save_path]) ++
        List.replicate iterations Ev.runAcc
    store := store }

/-- Model of `Trainer.get_valid_accuracy`: `get_accuracy` on the validation iterator
and the validation-accuracy tensor, with the default iteration count 50. -/
def get_valid_accuracy (store : List String) (accVals : ℕ → ℚ)
    (iterations : ℕ := 50) : AccResult :=
  get_accuracy store accVals iterations

/-- Result of one `predict_prob` call: the returned array (or the exception
raised), the event trace, and the checkpoint-directory listing afterwards. -/
structure PredResult where
  value : Except PyErr NpArray
  events : List Ev
  store : List String

/-- Accumulator for `argmaxRow`: position of the first maximal entry among
the elements seen so far. -/
def argmaxAux : List ℚ → ℕ → ℕ → ℚ → ℕ
  | [], _, bi, _ => bi
  | x :: xs, i, bi, bv =>
      if bv < x then argmaxAux xs (i + 1) i x else argmaxAux xs (i + 1) bi bv

/-- Model of `np.argmax` over one row: index of the first maximal entry
(0 on an empty row). -/
def argmaxRow : List ℚ → ℕ
  | [] => 0
  | x :: xs => argmaxAux xs 1 0 x

/-- Model of `astype(np.int32)` on a nonnegative integer: wrap to signed 32-bit. -/
def toInt32 (n : ℕ) : ℤ :=
  if n % 2 ^ 32 < 2 ^ 31 then ((n % 2 ^ 32 : ℕ) : ℤ)
  else ((n % 2 ^ 32 : ℕ) : ℤ) - 2 ^ 32

/-- Model of `Trainer.predict_prob`, parametrised by the network function `netOut`
mapping (whether the session initialized parameters fresh, i.e. the
checkpoint-directory listing was empty; the input batch) to the softmax
probability rows computed by `sess.run(self.tf_prediction, ...)`.
The dtype assertion on line 204 runs before the session is opened; on
failure nothing else happens. -/
def predict_prob (store : List String)
    (netOut : Bool → List (List ℚ) → List (List ℚ)) (img : NpArray) :
    PredResult :=
  if img.dtype = Dtype.float32 then
    { value := Except.ok { dtype := Dtype.float32
                           data := netOut store.isEmpty img.data }
      events :=
        [Ev.openSession] ++
          (if store = [] then [Ev.initVars] else [Ev.restore save_path]) ++
          [Ev.runPred]
      store := store }
  else
    { value := Except.error PyErr.assertionError
      events := []
      store := store }

/-- Model of `Trainer.predict`: call `predict_prob`, then take the per-row
`np.argmax(result, axis=1)` and `astype(np.int32)`; an exception from
`predict_prob` propagates. -/
def predict (store : List String)
    (netOut : Bool → List (List ℚ) → List (List ℚ)) (img : NpArray) :
    Except PyErr (List ℤ) :=
  match (predict_prob store netOut img).value with
  | Except.error e => Except.error e
  | Except.ok probs => Except.ok (probs.data.map (fun row => toInt32 (argmaxRow row)))

/-- A checkpoint trace is linked when each event's `bestBefore` is the
tracker value left behind by the previous event, starting from `b` and
ending at `bf`. -/
def Linked : WithTop ℚ → List CkptEvent → WithTop ℚ → Prop
  | b, [], bf => bf = b
  | b, e :: tr, bf => e.bestBefore = b ∧ Linked (bestAfter e) tr bf

/-- Whether an event is a snapshot write. -/
def isSave : Ev → Bool
  | Ev.save _ => true
  | _ => false

/-- Number of snapshot writes in an event trace. -/
def savesIn (l : List Ev) : ℕ := (l.filter isSave).length

/-- Invariant of the `fit` loop tying the event trace, the checkpoint trace
and the best tracker together. -/
def FitInv (st : FitState) : Prop :=
  Linked ⊤ st.ckptTrace st.best ∧
  (∀ e ∈ st.ckptTrace, e.saved = true ↔ (e.validLoss : WithTop ℚ) < e.bestBefore) ∧
  savesIn st.events = (st.ckptTrace.filter (fun e => e.saved)).length

/-- Sample valid (float32) input batch. -/
def imgOK : NpArray := { dtype := Dtype.float32, data := [[0, 1], [1, 0]] }

/-- Sample input batch with a wrong dtype. -/
def imgBad : NpArray := { dtype := Dtype.uint8, data := [[0, 1]] }

lemma Linked_nil (b bf : WithTop ℚ) : Linked b [] bf ↔ bf = b := Iff.rfl

lemma Linked_cons (b bf : WithTop ℚ) (e : CkptEvent) (tr : List CkptEvent) :
    Linked b (e :: tr) bf ↔ e.bestBefore = b ∧ Linked (bestAfter e) tr bf := Iff.rfl

lemma Linked_snoc (b bf : WithTop ℚ) (tr : List CkptEvent) (e : CkptEvent)
    (h : Linked b tr bf) (he : e.bestBefore = bf) :
    Linked b (tr ++ [e]) (bestAfter e) := by
  induction tr generalizing b with
  | nil =>
      rw [Linked_nil] at h
      exact ⟨he.trans h, rfl⟩
  | cons e' tr ih =>
      obtain ⟨hb, hl⟩ := h
      exact ⟨hb, ih _ hl⟩

lemma savesIn_append (l1 l2 : List Ev) :
    savesIn (l1 ++ l2) = savesIn l1 + savesIn l2 := by
  simp [savesIn, List.filter_append]

lemma foldl_pres {α β : Type _} (P : β → Prop) (f : β → α → β)
    (hf : ∀ b a, P b → P (f b a)) :
    ∀ (l : List α) (b : β), P b → P (l.foldl f b) := by
  intro l
  induction l with
  | nil => intro b hb; simpa using hb
  | cons a l ih => intro b hb; simpa using ih (f b a) (hf b a hb)

lemma FitInv_trainUpdate (st : FitState) (h : FitInv st) :
    FitInv (trainUpdate st) := by
  obtain ⟨h1, h2, h3⟩ := h
  refine ⟨h1, h2, ?_⟩
  have h0 : savesIn [Ev.runUpdate, Ev.runTrainLoss] = 0 := rfl
  simp [trainUpdate, savesIn_append, h0, h3]

lemma FitInv_report (vl : ℕ → ℚ) (st : FitState) (h : FitInv st) :
    FitInv (report vl st) := by
  obtain ⟨h1, h2, h3⟩ := h
  by_cases hlt : (vl st.validRuns : WithTop ℚ) < st.best
  · refine ⟨?_, ?_, ?_⟩
    · have hsn := Linked_snoc ⊤ st.best st.ckptTrace
        ⟨vl st.validRuns, st.best, true⟩ h1 rfl
      simpa [report, hlt, bestAfter] using hsn
    · intro e he
      simp only [report, if_pos hlt] at he
      rcases List.mem_append.mp he with h' | h'
      · exact h2 e h'
      · rcases List.mem_singleton.mp h' with rfl
        simp [hlt]
    · have h4 : savesIn [Ev.runValidLoss, Ev.save save_path] = 1 := rfl
      simp [report, hlt, savesIn_append, h4, h3, List.filter_append]
  · refine ⟨?_, ?_, ?_⟩
    · have hsn := Linked_snoc ⊤ st.best st.ckptTrace
        ⟨vl st.validRuns, st.best, false⟩ h1 rfl
      simpa [report, hlt, bestAfter] using hsn
    · intro e he
      simp only [report, if_neg hlt] at he
      rcases List.mem_append.mp he with h' | h'
      · exact h2 e h'
      · rcases List.mem_singleton.mp h' with rfl
        simp [hlt]
    · have h5 : savesIn [Ev.runValidLoss] = 0 := rfl
      simp [report, hlt, savesIn_append, h5, h3, List.filter_append]

lemma FitInv_runStep (cfg : Config) (vl : ℕ → ℚ) (st : FitState) (i : ℕ)
    (h : FitInv st) : FitInv (runStep cfg vl st i) := by
  unfold runStep
  split
  · exact FitInv_report vl _ (FitInv_trainUpdate st h)
  · exact FitInv_trainUpdate st h

lemma FitInv_fitInit (store0 : List String) : FitInv (fitInit store0) := by
  refine ⟨?_, ?_, ?_⟩
  · rw [fitInit]
    exact (Linked_nil _ _).mpr rfl
  · intro e he
    simp [fitInit] at he
  · rfl

lemma FitInv_fit (cfg : Config) (vl : ℕ → ℚ) (store0 : List String) :
    FitInv (fit cfg vl store0) :=
  foldl_pres FitInv (runEpoch cfg vl)
    (fun st _e h =>
      foldl_pres FitInv (runStep cfg vl)
        (fun st' i h' => FitInv_runStep cfg vl st' i h')
        (List.range cfg.num_steps) st h)
    (List.range cfg.epochs) (fitInit store0) (FitInv_fitInit store0)

lemma linked_chain (tr : List CkptEvent) :
    ∀ b bf : WithTop ℚ, Linked b tr bf →
      (∀ e ∈ tr, e.saved = true ↔ (e.validLoss : WithTop ℚ) < e.bestBefore) →
      List.Chain' (fun x y => y ≤ x) (b :: tr.map bestAfter) := by
  induction tr with
  | nil => intro b bf _ _; simp
  | cons e tr ih =>
      intro b bf hl hs
      obtain ⟨hb, hl'⟩ := hl
      have hle : bestAfter e ≤ b := by
        by_cases hsv : e.saved = true
        · have hv := (hs e (by simp)).mp hsv
          have hba : bestAfter e = (e.validLoss : WithTop ℚ) := by
            simp [bestAfter, hsv]
          rw [hba, ← hb]
          exact hv.le
        · have hba : bestAfter e = e.bestBefore := by simp [bestAfter, hsv]
          rw [hba, hb]
      have hchain := ih (bestAfter e) bf hl'
        (fun e' he' => hs e' (List.mem_cons_of_mem _ he'))
      rw [List.map_cons]
      exact List.chain'_cons.mpr ⟨hle, hchain⟩

lemma runStep_events (cfg : Config) (vl : ℕ → ℚ) (st : FitState) (i : ℕ) :
    ∃ t, (runStep cfg vl st i).events = st.events ++ t ∧
      ∀ p, Ev.restore p ∉ t := by
  by_cases h : i % cfg.save_step = 0
  · by_cases hlt : (vl st.validRuns : WithTop ℚ) < st.best
    · refine ⟨[Ev.runUpdate, Ev.runTrainLoss, Ev.runValidLoss, Ev.save save_path],
        ?_, ?_⟩
      · simp [runStep, h, report, hlt, trainUpdate]
      · intro p; simp
    · refine ⟨[Ev.runUpdate, Ev.runTrainLoss, Ev.runValidLoss], ?_, ?_⟩
      · simp [runStep, h, report, hlt, trainUpdate]
      · intro p; simp
  · exact ⟨[Ev.runUpdate, Ev.runTrainLoss], by simp [runStep, h, trainUpdate],
      by intro p; simp⟩

lemma foldl_events_append {α : Type _} (f : FitState → α → FitState)
    (hf : ∀ st a, ∃ t, (f st a).events = st.events ++ t ∧ ∀ p, Ev.restore p ∉ t) :
    ∀ (l : List α) (st : FitState),
      ∃ t, (l.foldl f st).events = st.events ++ t ∧ ∀ p, Ev.restore p ∉ t := by
  intro l
  induction l with
  | nil => intro st; exact ⟨[], by simp, by intro p; simp⟩
  | cons a l ih =>
      intro st
      obtain ⟨t1, ht1, hp1⟩ := hf st a
      obtain ⟨t2, ht2, hp2⟩ := ih (f st a)
      refine ⟨t1 ++ t2, ?_, ?_⟩
      · simp [List.foldl_cons, ht2, ht1, List.append_assoc]
      · intro p hp
        rcases List.mem_append.mp hp with h | h
        · exact hp1 p h
        · exact hp2 p h

lemma runEpoch_events (cfg : Config) (vl : ℕ → ℚ) (st : FitState) (e : ℕ) :
    ∃ t, (runEpoch cfg vl st e).events = st.events ++ t ∧
      ∀ p, Ev.restore p ∉ t :=
  foldl_events_append (runStep cfg vl) (runStep_events cfg vl)
    (List.range cfg.num_steps) st

lemma fit_events (cfg : Config) (vl : ℕ → ℚ) (store0 : List String) :
    ∃ t, (fit cfg vl store0).events = (fitInit store0).events ++ t ∧
      ∀ p, Ev.restore p ∉ t :=
  foldl_events_append (runEpoch cfg vl) (runEpoch_events cfg vl)
    (List.range cfg.epochs) (fitInit store0)

lemma runStep_updateBatches (cfg : Config) (vl : ℕ → ℚ) (st : FitState) (i : ℕ) :
    (runStep cfg vl st i).updateBatches = st.updateBatches ++ [st.trainBatches] := by
  by_cases h : i % cfg.save_step = 0
  · by_cases hlt : (vl st.validRuns : WithTop ℚ) < st.best
    · simp [runStep, h, report, hlt, trainUpdate]
    · simp [runStep, h, report, hlt, trainUpdate]
  · simp [runStep, h, trainUpdate]

lemma foldl_updateBatches_append {α : Type _} (f : FitState → α → FitState)
    (hf : ∀ st a, ∃ t, (f st a).updateBatches = st.updateBatches ++ t) :
    ∀ (l : List α) (st : FitState),
      ∃ t, (l.foldl f st).updateBatches = st.updateBatches ++ t := by
  intro l
  induction l with
  | nil => intro st; exact ⟨[], by simp⟩
  | cons a l ih =>
      intro st
      obtain ⟨t1, ht1⟩ := hf st a
      obtain ⟨t2, ht2⟩ := ih (f st a)
      exact ⟨t1 ++ t2, by simp [List.foldl_cons, ht2, ht1, List.append_assoc]⟩

lemma runStep_trainBatches (cfg : Config) (vl : ℕ → ℚ) (st : FitState) (i : ℕ) :
    (runStep cfg vl st i).trainBatches = st.trainBatches + 1 := by
  by_cases h : i % cfg.save_step = 0
  · by_cases hlt : (vl st.validRuns : WithTop ℚ) < st.best
    · simp [runStep, h, report, hlt, trainUpdate]
    · simp [runStep, h, report, hlt, trainUpdate]
  · simp [runStep, h, trainUpdate]

lemma foldl_runStep_trainBatches (cfg : Config) (vl : ℕ → ℚ) (l : List ℕ) :
    ∀ st : FitState,
      (l.foldl (runStep cfg vl) st).trainBatches = st.trainBatches + l.length := by
  induction l with
  | nil => intro st; simp
  | cons a l ih =>
      intro st
      rw [List.foldl_cons, ih, runStep_trainBatches]
      simp [Nat.add_assoc, Nat.add_comm 1 l.length]

lemma runEpoch_trainBatches (cfg : Config) (vl : ℕ → ℚ) (st : FitState) (e : ℕ) :
    (runEpoch cfg vl st e).trainBatches = st.trainBatches + cfg.num_steps := by
  rw [runEpoch, foldl_runStep_trainBatches, List.length_range]

lemma fit_trainBatches (cfg : Config) (vl : ℕ → ℚ) (store0 : List String) :
    (fit cfg vl store0).trainBatches = cfg.epochs * cfg.num_steps + 1 := by
  have hgen : ∀ (l : List ℕ) (st : FitState),
      (l.foldl (runEpoch cfg vl) st).trainBatches
        = st.trainBatches + l.length * cfg.num_steps := by
    intro l
    induction l with
    | nil => intro st; simp
    | cons a l ih =>
        intro st
        rw [List.foldl_cons, ih, runEpoch_trainBatches]
        simp only [List.length_cons]
        ring
  rw [fit, hgen, List.length_range, fitInit]
  ring

lemma saveCkpt_ne_nil (s : List String) : saveCkpt s ≠ [] := by
  unfold saveCkpt
  split
  · exact List.ne_nil_of_mem (by assumption)
  · exact List.cons_ne_nil _ _

lemma runStep_store_pres (cfg : Config) (vl : ℕ → ℚ) (st : FitState) (i : ℕ)
    (h : st.store ≠ []) : (runStep cfg vl st i).store ≠ [] := by
  by_cases h0 : i % cfg.save_step = 0
  · by_cases hlt : (vl st.validRuns : WithTop ℚ) < st.best
    · simp only [runStep, if_pos h0, report, if_pos hlt, trainUpdate]
      exact saveCkpt_ne_nil _
    · simpa [runStep, h0, report, hlt, trainUpdate] using h
  · simpa [runStep, h0, trainUpdate] using h

lemma range_pos_cons (n : ℕ) (h : 0 < n) : ∃ l, List.range n = 0 :: l := by
  obtain ⟨m, rfl⟩ := Nat.exists_eq_succ_of_ne_zero h.ne'
  exact ⟨List.map Nat.succ (List.range m), List.range_succ_eq_map m⟩

lemma runStep_zero_store (cfg : Config) (vl : ℕ → ℚ) (store0 : List String) :
    (runStep cfg vl (fitInit store0) 0).store = saveCkpt store0 := by
  have h0 : 0 % cfg.save_step = 0 := Nat.zero_mod _
  have hlt : (vl (fitInit store0).validRuns : WithTop ℚ)
      < (fitInit store0).best := by
    simp [fitInit]
  simp [runStep, h0, report, hlt, trainUpdate, fitInit]

lemma list_sum_nonneg (l : List ℚ) (h : ∀ x ∈ l, 0 ≤ x) : 0 ≤ l.sum := by
  induction l with
  | nil => simp
  | cons a l ih =>
      rw [List.sum_cons]
      have ha := h a (by simp)
      have hl := ih (fun x hx => h x (List.mem_cons_of_mem _ hx))
      linarith

lemma list_sum_le_len (l : List ℚ) (h : ∀ x ∈ l, x ≤ 1) :
    l.sum ≤ (l.length : ℚ) := by
  induction l with
  | nil => simp
  | cons a l ih =>
      rw [List.sum_cons, List.length_cons]
      have ha := h a (by simp)
      have hl := ih (fun x hx => h x (List.mem_cons_of_mem _ hx))
      push_cast
      linarith

/-- C1: within a single `fit` call, the best-validation-loss tracker starts
at `+∞`, the checkpoint trace is linked to it, a snapshot is written at a
report checkpoint if and only if the just-computed validation loss is
strictly below the best seen so far, the tracker values across report
checkpoints are monotonically non-increasing, and the number of snapshot
writes equals the number of strict-decrease events (write and best-loss
update happen together). -/
theorem fit_best_tracker (cfg : Config) (vl : ℕ → ℚ) (store0 : List String)
    (hs : 0 < cfg.save_step) :
    (fitInit store0).best = ⊤ ∧
    Linked ⊤ (fit cfg vl store0).ckptTrace (fit cfg vl store0).best ∧
    (∀ e ∈ (fit cfg vl store0).ckptTrace,
      e.saved = true ↔ (e.validLoss : WithTop ℚ) < e.bestBefore) ∧
    List.Chain' (fun x y => y ≤ x)
      ((⊤ : WithTop ℚ) :: (fit cfg vl store0).ckptTrace.map bestAfter) ∧
    savesIn (fit cfg vl store0).events =
      ((fit cfg vl store0).ckptTrace.filter (fun e => e.saved)).length := by
  obtain ⟨h1, h2, h3⟩ := FitInv_fit cfg vl store0
  exact ⟨rfl, h1, h2, linked_chain _ _ _ h1 h2, h3⟩

/-- Witness for C1 at a concrete configuration. -/
theorem fit_best_tracker_witness :
    0 < (Config.mk 1 2 1).save_step ∧
    ((fitInit ([] : List String)).best = ⊤ ∧
     Linked ⊤ (fit (Config.mk 1 2 1) (fun k => (k : ℚ)) []).ckptTrace
       (fit (Config.mk 1 2 1) (fun k => (k : ℚ)) []).best ∧
     (∀ e ∈ (fit (Config.mk 1 2 1) (fun k => (k : ℚ)) []).ckptTrace,
       e.saved = true ↔ (e.validLoss : WithTop ℚ) < e.bestBefore) ∧
     List.Chain' (fun x y => y ≤ x)
       ((⊤ : WithTop ℚ) ::
         (fit (Config.mk 1 2 1) (fun k => (k : ℚ)) []).ckptTrace.map bestAfter) ∧
     savesIn (fit (Config.mk 1 2 1) (fun k => (k : ℚ)) []).events =
       ((fit (Config.mk 1 2 1) (fun k => (k : ℚ)) []).ckptTrace.filter
         (fun e => e.saved)).length) :=
  ⟨by decide, fit_best_tracker (Config.mk 1 2 1) (fun k => (k : ℚ)) [] (by decide)⟩

/-- C2: every `fit` call opens a session and begins by resetting the train
and validation iterators and initializing all parameters fresh, with the
best tracker set to `+∞`; regardless of the checkpoint store's contents,
`fit` never performs a restore. -/
theorem fit_fresh_start (cfg : Config) (vl : ℕ → ℚ) (store0 : List String) :
    (fitInit store0).best = ⊤ ∧
    (∃ t, (fit cfg vl store0).events =
      [Ev.openSession, Ev.initTrainIter, Ev.initValidIter, Ev.initVars,
       Ev.runTrainLoss] ++ t) ∧
    ∀ p, Ev.restore p ∉ (fit cfg vl store0).events := by
  obtain ⟨t, ht, hp⟩ := fit_events cfg vl store0
  refine ⟨rfl, ⟨t, ht⟩, ?_⟩
  intro p hmem
  rw [ht] at hmem
  rcases List.mem_append.mp hmem with h | h
  · simp [fitInit] at h
  · exact hp p h

/-- C3: for a float32 input batch, `predict` returns exactly the per-row
argmax of `predict_prob`'s output, cast to 32-bit integers. -/
theorem predict_eq_argmax (store : List String)
    (netOut : Bool → List (List ℚ) → List (List ℚ)) (img : NpArray)
    (himg : img.dtype = Dtype.float32) :
    ∃ probs, (predict_prob store netOut img).value = Except.ok probs ∧
      predict store netOut img =
        Except.ok (probs.data.map (fun row => toInt32 (argmaxRow row))) := by
  refine ⟨{ dtype := Dtype.float32, data := netOut store.isEmpty img.data },
    ?_, ?_⟩
  · simp [predict_prob, himg]
  · simp [predict, predict_prob, himg]

/-- Witness for C3 at a concrete input batch. -/
theorem predict_eq_argmax_witness :
    imgOK.dtype = Dtype.float32 ∧
    (∃ probs, (predict_prob [] (fun _ d => d) imgOK).value = Except.ok probs ∧
      predict [] (fun _ d => d) imgOK =
        Except.ok (probs.data.map (fun row => toInt32 (argmaxRow row)))) :=
  ⟨rfl, predict_eq_argmax [] (fun _ d => d) imgOK rfl⟩

/-- C4: `predict_prob` raises an `AssertionError` immediately — before the
session is opened or any checkpoint state is touched — when the input
array's dtype is not float32, and the assertion passes (a value is
returned) when it is float32. -/
theorem predict_prob_dtype_guard (store : List String)
    (netOut : Bool → List (List ℚ) → List (List ℚ)) (img : NpArray) :
    (img.dtype ≠ Dtype.float32 →
      (predict_prob store netOut img).value = Except.error PyErr.assertionError ∧
      (predict_prob store netOut img).events = []) ∧
    (img.dtype = Dtype.float32 →
      ∃ a, (predict_prob store netOut img).value = Except.ok a) := by
  constructor
  · intro h
    constructor <;> simp [predict_prob, h]
  · intro h
    exact ⟨{ dtype := Dtype.float32, data := netOut store.isEmpty img.data },
      by simp [predict_prob, h]⟩

/-- Witness for C4: a wrongly-typed and a correctly-typed concrete batch. -/
theorem predict_prob_dtype_guard_witness :
    (imgBad.dtype ≠ Dtype.float32 ∧
      (predict_prob [] (fun _ d => d) imgBad).value =
        Except.error PyErr.assertionError ∧
      (predict_prob [] (fun _ d => d) imgBad).events = []) ∧
    (imgOK.dtype = Dtype.float32 ∧
      ∃ a, (predict_prob [] (fun _ d => d) imgOK).value = Except.ok a) :=
  ⟨⟨by decide, (predict_prob_dtype_guard [] (fun _ d => d) imgBad).1 (by decide)⟩,
   ⟨rfl, (predict_prob_dtype_guard [] (fun _ d => d) imgOK).2 rfl⟩⟩

/-- C5: `get_accuracy` with iteration count 0 raises `ZeroDivisionError`;
for every count ≥ 1 the division is well-defined and a value is returned;
`get_valid_accuracy` defaults the count to 50. -/
theorem get_accuracy_zero_error (store : List String) (accVals : ℕ → ℚ) :
    (get_accuracy store accVals 0).value = Except.error PyErr.zeroDivisionError ∧
    (∀ N, 1 ≤ N → ∃ q, (get_accuracy store accVals N).value = Except.ok q) ∧
    get_valid_accuracy store accVals = get_accuracy store accVals 50 := by
  refine ⟨rfl, ?_, rfl⟩
  intro N hN
  exact ⟨((List.range N).map accVals).sum / (N : ℚ),
    by simp [get_accuracy, Nat.one_le_iff_ne_zero.mp hN]⟩

/-- Witness for C5 at a concrete positive iteration count. -/
theorem get_accuracy_zero_error_witness :
    (1 : ℕ) ≤ 3 ∧ ∃ q, (get_accuracy [] (fun _ => (0 : ℚ)) 3).value = Except.ok q :=
  ⟨by decide, (get_accuracy_zero_error [] (fun _ => (0 : ℚ))).2.1 3 (by decide)⟩

/-- C6: for every iteration count N ≥ 1, `get_accuracy` returns the
arithmetic mean of the N accuracy-tensor executions, and when each executed
value lies in [0,1] the returned value lies in [0,1]. -/
theorem get_accuracy_mean_bounds (store : List String) (accVals : ℕ → ℚ)
    (N : ℕ) (hN : 1 ≤ N) (hb : ∀ i, i < N → 0 ≤ accVals i ∧ accVals i ≤ 1) :
    (get_accuracy store accVals N).value =
      Except.ok (((List.range N).map accVals).sum / (N : ℚ)) ∧
    0 ≤ ((List.range N).map accVals).sum / (N : ℚ) ∧
    ((List.range N).map accVals).sum / (N : ℚ) ≤ 1 := by
  have hN0 : N ≠ 0 := Nat.one_le_iff_ne_zero.mp hN
  have hNQ : (0 : ℚ) < (N : ℚ) := by
    exact_mod_cast Nat.pos_of_ne_zero hN0
  have hx : ∀ x ∈ (List.range N).map accVals, 0 ≤ x ∧ x ≤ 1 := by
    intro x hx
    obtain ⟨i, hi, rfl⟩ := List.mem_map.mp hx
    exact hb i (List.mem_range.mp hi)
  have hs0 : 0 ≤ ((List.range N).map accVals).sum :=
    list_sum_nonneg _ (fun x h => (hx x h).1)
  have hs1 : ((List.range N).map accVals).sum ≤ (N : ℚ) := by
    have := list_sum_le_len _ (fun x h => (hx x h).2)
    simpa using this
  refine ⟨by simp [get_accuracy, hN0], div_nonneg hs0 hNQ.le, ?_⟩
  rw [div_le_one hNQ]
  exact hs1

/-- Witness for C6 at a concrete iteration count and accuracy sequence. -/
theorem get_accuracy_mean_bounds_witness :
    (1 : ℕ) ≤ 2 ∧
    (∀ i, i < 2 → 0 ≤ (fun _ : ℕ => (1 : ℚ) / 2) i ∧
      (fun _ : ℕ => (1 : ℚ) / 2) i ≤ 1) ∧
    ((get_accuracy [] (fun _ => (1 : ℚ) / 2) 2).value =
        Except.ok (((List.range 2).map (fun _ => (1 : ℚ) / 2)).sum / ((2 : ℕ) : ℚ)) ∧
      0 ≤ ((List.range 2).map (fun _ => (1 : ℚ) / 2)).sum / ((2 : ℕ) : ℚ) ∧
      ((List.range 2).map (fun _ => (1 : ℚ) / 2)).sum / ((2 : ℕ) : ℚ) ≤ 1) :=
  ⟨by decide, fun i _ => by norm_num,
    get_accuracy_mean_bounds [] (fun _ => (1 : ℚ) / 2) 2 (by decide)
      (fun i _ => by norm_num)⟩

/-- C7: in both `get_accuracy` and `predict_prob`, the restore-versus-fresh
decision depends solely on whether the checkpoint directory's listing is
empty: an empty listing leads to fresh initialization and no restore, a
non-empty listing leads to a restore from the fixed `save_path` prefix and
no fresh initialization. -/
theorem restore_decision_by_emptiness (store : List String) (accVals : ℕ → ℚ)
    (N : ℕ) (netOut : Bool → List (List ℚ) → List (List ℚ)) (img : NpArray)
    (himg : img.dtype = Dtype.float32) :
    (store = [] →
      Ev.initVars ∈ (get_accuracy store accVals N).events ∧
      (∀ p, Ev.restore p ∉ (get_accuracy store accVals N).events) ∧
      Ev.initVars ∈ (predict_prob store netOut img).events ∧
      (∀ p, Ev.restore p ∉ (predict_prob store netOut img).events)) ∧
    (store ≠ [] →
      Ev.restore save_path ∈ (get_accuracy store accVals N).events ∧
      Ev.initVars ∉ (get_accuracy store accVals N).events ∧
      Ev.restore save_path ∈ (predict_prob store netOut img).events ∧
      Ev.initVars ∉ (predict_prob store netOut img).events) := by
  constructor
  · intro h
    refine ⟨?_, ?_, ?_, ?_⟩ <;>
      simp [get_accuracy, predict_prob, himg, h, List.mem_replicate]
  · intro h
    refine ⟨?_, ?_, ?_, ?_⟩ <;>
      simp [get_accuracy, predict_prob, himg, h, List.mem_replicate]

/-- Witness for C7 at a concrete non-empty checkpoint listing. -/
theorem restore_decision_by_emptiness_witness :
    imgOK.dtype = Dtype.float32 ∧ ("ckpt" :: []) ≠ ([] : List String) ∧
    (Ev.restore save_path ∈ (get_accuracy ["ckpt"] (fun _ => (0 : ℚ)) 1).events ∧
      Ev.initVars ∉ (get_accuracy ["ckpt"] (fun _ => (0 : ℚ)) 1).events ∧
      Ev.restore save_path ∈ (predict_prob ["ckpt"] (fun _ d => d) imgOK).events ∧
      Ev.initVars ∉ (predict_prob ["ckpt"] (fun _ d => d) imgOK).events) :=
  ⟨rfl, List.cons_ne_nil "ckpt" [],
    (restore_decision_by_emptiness ["ckpt"] (fun _ => (0 : ℚ)) 1
      (fun _ d => d) imgOK rfl).2 (List.cons_ne_nil "ckpt" [])⟩

/-- C8: `get_accuracy` (and therefore `get_valid_accuracy`) never writes to
the checkpoint store: the directory listing after the call equals the one
before it. -/
theorem get_accuracy_store_frame (store : List String) (accVals : ℕ → ℚ)
    (N : ℕ) :
    (get_accuracy store accVals N).store = store ∧
    (get_valid_accuracy store accVals).store = store :=
  ⟨rfl, rfl⟩

/-- C9: whenever `fit` executes at least one report-interval step (at least
one epoch, at least one step per epoch, positive report interval), the
checkpoint directory is non-empty when `fit` returns. -/
theorem fit_store_nonempty (cfg : Config) (vl : ℕ → ℚ) (store0 : List String)
    (h1 : 0 < cfg.epochs) (h2 : 0 < cfg.num_steps) (h3 : 0 < cfg.save_step) :
    (fit cfg vl store0).store ≠ [] := by
  obtain ⟨le, hle⟩ := range_pos_cons cfg.epochs h1
  obtain ⟨ls, hls⟩ := range_pos_cons cfg.num_steps h2
  have hstep : ∀ (l : List ℕ) (st : FitState), st.store ≠ [] →
      (l.foldl (runStep cfg vl) st).store ≠ [] :=
    fun l st h => foldl_pres (fun s => s.store ≠ []) (runStep cfg vl)
      (fun b a hb => runStep_store_pres cfg vl b a hb) l st h
  have hepoch : ∀ (l : List ℕ) (st : FitState), st.store ≠ [] →
      (l.foldl (runEpoch cfg vl) st).store ≠ [] :=
    fun l st h => foldl_pres (fun s => s.store ≠ []) (runEpoch cfg vl)
      (fun b _a hb => hstep (List.range cfg.num_steps) b hb) l st h
  rw [fit, hle, List.foldl_cons]
  apply hepoch
  rw [runEpoch, hls, List.foldl_cons]
  apply hstep
  rw [runStep_zero_store]
  exact saveCkpt_ne_nil store0

/-- Witness for C9 at a concrete configuration. -/
theorem fit_store_nonempty_witness :
    0 < (Config.mk 1 1 1).epochs ∧ 0 < (Config.mk 1 1 1).num_steps ∧
    0 < (Config.mk 1 1 1).save_step ∧
    (fit (Config.mk 1 1 1) (fun _ => (0 : ℚ)) []).store ≠ [] :=
  ⟨by decide, by decide, by decide,
    fit_store_nonempty (Config.mk 1 1 1) (fun _ => (0 : ℚ)) []
      (by decide) (by decide) (by decide)⟩

/-- C10: `fit` evaluates the training-loss tensor once before the epoch
loop without an optimizer update, consuming one training batch; the first
optimizer update therefore operates on the second training batch (0-based
index 1), and a full run consumes `epochs * num_steps + 1` training
batches. -/
theorem fit_preloop_batch (cfg : Config) (vl : ℕ → ℚ) (store0 : List String)
    (hs : 0 < cfg.save_step) :
    (fitInit store0).trainBatches = 1 ∧
    Ev.runUpdate ∉ (fitInit store0).events ∧
    Ev.runTrainLoss ∈ (fitInit store0).events ∧
    (fit cfg vl store0).trainBatches = cfg.epochs * cfg.num_steps + 1 ∧
    (0 < cfg.epochs → 0 < cfg.num_steps →
      (fit cfg vl store0).updateBatches.head? = some 1) := by
  refine ⟨rfl, by simp [fitInit], by simp [fitInit],
    fit_trainBatches cfg vl store0, ?_⟩
  intro h1 h2
  obtain ⟨le, hle⟩ := range_pos_cons cfg.epochs h1
  obtain ⟨ls, hls⟩ := range_pos_cons cfg.num_steps h2
  have hstep : ∀ (l : List ℕ) (st : FitState),
      ∃ t, (l.foldl (runStep cfg vl) st).updateBatches = st.updateBatches ++ t :=
    fun l st => foldl_updateBatches_append (runStep cfg vl)
      (fun b a => ⟨[b.trainBatches], runStep_updateBatches cfg vl b a⟩) l st
  have hepoch : ∀ (l : List ℕ) (st : FitState),
      ∃ t, (l.foldl (runEpoch cfg vl) st).updateBatches = st.updateBatches ++ t :=
    fun l st => foldl_updateBatches_append (runEpoch cfg vl)
      (fun b _a => hstep (List.range cfg.num_steps) b) l st
  rw [fit, hle, List.foldl_cons]
  obtain ⟨t2, ht2⟩ := hepoch le (runEpoch cfg vl (fitInit store0) 0)
  rw [ht2, runEpoch, hls, List.foldl_cons]
  obtain ⟨t1, ht1⟩ := hstep ls (runStep cfg vl (fitInit store0) 0)
  have hfirst : (runStep cfg vl (fitInit store0) 0).updateBatches = [1] := by
    rw [runStep_updateBatches]
    rfl
  rw [ht1, hfirst]
  simp

/-- Witness for C10 at a concrete configuration. -/
theorem fit_preloop_batch_witness :
    0 < (Config.mk 1 1 1).save_step ∧
    ((fitInit ([] : List String)).trainBatches = 1 ∧
     Ev.runUpdate ∉ (fitInit ([] : List String)).events ∧
     Ev.runTrainLoss ∈ (fitInit ([] : List String)).events ∧
     (fit (Config.mk 1 1 1) (fun _ => (0 : ℚ)) []).trainBatches =
       (Config.mk 1 1 1).epochs * (Config.mk 1 1 1).num_steps + 1 ∧
     (0 < (Config.mk 1 1 1).epochs → 0 < (Config.mk 1 1 1).num_steps →
       (fit (Config.mk 1 1 1) (fun _ => (0 : ℚ)) []).updateBatches.head? =
         some 1)) :=
  ⟨by decide, fit_preloop_batch (Config.mk 1 1 1) (fun _ => (0 : ℚ)) []
    (by decide)⟩

end Trainer
